import Mathlib

/-!
Shallow embedding of the data-shaping logic of an AI-agent analytics
dashboard (file `src/dashboard/src/lib/supabaseData.ts` and the pages that
consume it), together with theorems checking the natural-language
specification of that logic.

Modelling conventions:
* JavaScript numbers that hold scores, durations and percentages are
  modelled as rationals (`ℚ`); all values arising here are decimal
  fractions, which `ℚ` represents exactly.
* Nullable columns are modelled as `Option`; JavaScript's `x || 0`
  null-to-zero coercion and `sum + null` (which coerces `null` to `0`
  in numeric addition) become `Option.getD 0`.
* `Number(x.toFixed(1))` is modelled by `round1`: JavaScript `toFixed`
  chooses the integer `n` minimising `|n / 10 - x|`, picking the larger
  `n` on ties, i.e. `⌊10 x + 1/2⌋ / 10`.
* Timestamps are integers: epoch-day indices for the weekly bucketer
  (day 0 = 1970-01-01, a Thursday, so JavaScript's `getDay` is
  `(d + 4) % 7`), opaque integers where only ordering matters.
-/

namespace Dashboard

/-- Rounding to one decimal place, as JavaScript `Number(x.toFixed(1))`
(round half toward `+∞`). -/
def round1 (x : ℚ) : ℚ := (⌊x * 10 + 1/2⌋ : ℚ) / 10

/-- One row of the remote view `vw_agent_performance_summary`, restricted to
the columns this layer reads. `last_test_score` and `last_test_at` are
nullable in the schema; `total_testes_executados` is kept nullable to model
rows where the counter is absent. -/
structure AgentPerformanceSummary where
  agent_version_id : String
  agent_name : String
  version : String
  status : String
  last_test_score : Option ℚ
  last_test_at : Option String
  created_at : String
  total_testes_executados : Option ℤ
deriving DecidableEq, Repr

/-- Result shape of `fetchDashboardStats`. -/
structure DashboardStats where
  totalAgents : ℕ
  averageScore : ℚ
  testsRun : ℤ
  passRate : ℚ
deriving DecidableEq, Repr

/-- Local `validScores` of `fetchDashboardStats`: rows whose
`last_test_score !== null`. -/
def validScores (agents : List AgentPerformanceSummary) : List AgentPerformanceSummary :=
  agents.filter (fun a => a.last_test_score.isSome)

/-- The reducer `validScores.reduce((sum, a) => sum + (a.last_test_score || 0), 0)`;
JavaScript `x || 0` on a number-or-null is `Option.getD 0`. -/
def scoreSum (agents : List AgentPerformanceSummary) : ℚ :=
  (validScores agents).foldl (fun sum a => sum + a.last_test_score.getD 0) 0

/-- Local `passedTests` of `fetchDashboardStats`: count of valid rows with
`(a.last_test_score || 0) >= 8.0`. -/
def passedCount (agents : List AgentPerformanceSummary) : ℕ :=
  ((validScores agents).filter (fun a => 8 ≤ a.last_test_score.getD 0)).length

/-- The `averageScore` ternary of `fetchDashboardStats` before `toFixed`. -/
def rawAverageScore (agents : List AgentPerformanceSummary) : ℚ :=
  if 0 < (validScores agents).length then
    scoreSum agents / (validScores agents).length
  else 0

/-- The `passRate` ternary of `fetchDashboardStats` before `toFixed`. -/
def rawPassRate (agents : List AgentPerformanceSummary) : ℚ :=
  if 0 < (validScores agents).length then
    ((passedCount agents : ℚ) / (validScores agents).length) * 100
  else 0

/-- Embedding of `fetchDashboardStats` (supabaseData.ts lines 19-44), applied
to the rows the upstream query returns. The `testsRun` reducer translates
`sum + a.total_testes_executados` (JavaScript coerces `null` to `0` in
numeric addition) via `Option.getD 0`. -/
def fetchDashboardStats (agents : List AgentPerformanceSummary) : DashboardStats :=
  { totalAgents := agents.length
    averageScore := round1 (rawAverageScore agents)
    testsRun := agents.foldl (fun sum a => sum + a.total_testes_executados.getD 0) 0
    passRate := round1 (rawPassRate agents) }

/-- Concrete agent row with score 9.0, used in the round-trip scenario. -/
def agA : AgentPerformanceSummary :=
  { agent_version_id := "a", agent_name := "A", version := "1", status := "active",
    last_test_score := some 9, last_test_at := some "2024-02-01",
    created_at := "2024-01-01", total_testes_executados := some 3 }

/-- Concrete agent row with score 7.5, used in the round-trip scenario. -/
def agB : AgentPerformanceSummary :=
  { agA with agent_version_id := "b", last_test_score := some (15/2) }

/-- Concrete agent row with a null score, used in the round-trip scenario. -/
def agC : AgentPerformanceSummary :=
  { agA with agent_version_id := "c", last_test_score := none }

/-- Concrete agent row with null score and null last-test timestamp, used in
the record-mapper fallback scenario. -/
def agD : AgentPerformanceSummary :=
  { agA with agent_version_id := "d", last_test_score := none, last_test_at := none }

/-- The three test statuses returned by `getTestStatus`. -/
inductive TestStatus where
  | passed
  | warning
  | failed
deriving DecidableEq, Repr

/-- Embedding of `getTestStatus` on the test-history page (lines 461-465):
`score >= 8.0 → passed`, else `score >= 6.0 → warning`, else `failed`. -/
def getTestStatus (score : ℚ) : TestStatus :=
  if 8 ≤ score then .passed
  else if 6 ≤ score then .warning
  else .failed

/-- One row of `vw_test_results_history` as the test-history page reads it.
`tested_at` is an epoch timestamp; only its order matters on this page. -/
structure LatestTestResult where
  test_result_id : String
  agent_version_id : String
  agent_name : String
  version : String
  overall_score : ℚ
  test_duration_ms : ℚ
  tested_at : ℤ
deriving DecidableEq, Repr

/-- Character-wise lower-casing, as `String.prototype.toLowerCase` on the
character lists of the names and queries involved. -/
def lowerChars (s : List Char) : List Char := s.map Char.toLower

/-- Starts-with check on character lists (an empty pattern always matches). -/
def strStarts : List Char → List Char → Bool
  | [], _ => true
  | _ :: _, [] => false
  | c :: cs, d :: ds => c == d && strStarts cs ds

/-- Substring check on character lists, as `String.prototype.includes`
(an empty pattern is contained in every string). -/
def strHas (pat : List Char) : List Char → Bool
  | [] => pat.isEmpty
  | c :: rest => strStarts pat (c :: rest) || strHas pat rest

/-- The `matchesSearch` predicate of `filteredTests`:
`test.agent_name.toLowerCase().includes(searchQuery.toLowerCase())`. -/
def matchesSearch (query : String) (t : LatestTestResult) : Bool :=
  strHas (lowerChars query.toList) (lowerChars t.agent_name.toList)

/-- Values of the status dropdown on the test-history page. -/
inductive StatusFilter where
  | all
  | passed
  | warning
  | failed
deriving DecidableEq, Repr

/-- Values of the score-range dropdown on the test-history page. -/
inductive ScoreFilter where
  | all
  | high
  | medium
  | low
deriving DecidableEq, Repr

/-- The `matchesStatus` predicate of `filteredTests`:
`statusFilter === 'all' || status === statusFilter`. -/
def matchesStatus (f : StatusFilter) (t : LatestTestResult) : Bool :=
  match f with
  | .all => true
  | .passed => decide (getTestStatus t.overall_score = .passed)
  | .warning => decide (getTestStatus t.overall_score = .warning)
  | .failed => decide (getTestStatus t.overall_score = .failed)

/-- The `matchesScore` predicate of `filteredTests`: `all`, or
`high`: `score >= 8`, `medium`: `8 > score >= 7`, `low`: `score < 7`. -/
def matchesScore (f : ScoreFilter) (t : LatestTestResult) : Bool :=
  match f with
  | .all => true
  | .high => decide (8 ≤ t.overall_score)
  | .medium => decide (7 ≤ t.overall_score) && decide (t.overall_score < 8)
  | .low => decide (t.overall_score < 7)

/-- Conjunction `matchesSearch && matchesStatus && matchesScore` returned by
the filter callback of `filteredTests`. -/
def testMatches (q : String) (sf : StatusFilter) (scf : ScoreFilter)
    (t : LatestTestResult) : Bool :=
  matchesSearch q t && matchesStatus sf t && matchesScore scf t

/-- Comparator ordering of `.sort((a, b) => new Date(b.tested_at).getTime() -
new Date(a.tested_at).getTime())`: `a` may precede `b` when `a`'s timestamp is
the later one. -/
def dateDesc (a b : LatestTestResult) : Prop := b.tested_at ≤ a.tested_at

instance : DecidableRel dateDesc :=
  fun a b => inferInstanceAs (Decidable (b.tested_at ≤ a.tested_at))

instance : IsTotal LatestTestResult dateDesc :=
  ⟨fun a b => le_total b.tested_at a.tested_at⟩

instance : IsTrans LatestTestResult dateDesc :=
  ⟨fun _ _ _ hab hbc => le_trans hbc hab⟩

/-- Embedding of `filteredTests` on the test-history page (lines 467-480):
filter by the conjunction of the three criteria, then sort by `tested_at`
descending (JavaScript's sort is stable; a stable insertion sort models it). -/
def filteredTests (q : String) (sf : StatusFilter) (scf : ScoreFilter)
    (tests : List LatestTestResult) : List LatestTestResult :=
  (tests.filter (testMatches q sf scf)).insertionSort dateDesc

/-- `Math.round`, which rounds half toward `+∞`. -/
def jsRound (x : ℚ) : ℤ := ⌊x + 1/2⌋

/-- Count of fetched tests classified `passed` on the test-history page
(line 503). -/
def passedTestsCount (tests : List LatestTestResult) : ℕ :=
  (tests.filter (fun t => decide (getTestStatus t.overall_score = .passed))).length

/-- Embedding of `averageDuration` on the test-history page (lines 504-508):
`totalTests > 0 ? Math.round(sum(duration_ms) / totalTests / 1000) : 0`. -/
def averageDuration (tests : List LatestTestResult) : ℤ :=
  if 0 < tests.length then
    jsRound (tests.foldl (fun acc t => acc + t.test_duration_ms) 0 / tests.length / 1000)
  else 0

/-- Numeric value shown by the pass-rate badge (lines 536-539):
`totalTests > 0 ? ((passedTests / totalTests) * 100).toFixed(1) : '0'`. -/
def passRateBadge (tests : List LatestTestResult) : ℚ :=
  if 0 < tests.length then
    round1 ((passedTestsCount tests / (tests.length : ℚ)) * 100)
  else 0

/-- Display shape produced by `mapAgentToLegacyFormat`. -/
structure LegacyAgent where
  id : String
  name : String
  version : String
  score : ℚ
  status : String
  lastEvaluation : String
deriving DecidableEq, Repr

/-- Embedding of `mapAgentToLegacyFormat` (lines 152-162): field renaming with
`score = agent.last_test_score || 0` and
`lastEvaluation = agent.last_test_at || agent.created_at`
(JavaScript `||` falls back exactly when the left side is null here). -/
def mapAgentToLegacyFormat (agent : AgentPerformanceSummary) : LegacyAgent :=
  { id := agent.agent_version_id
    name := agent.agent_name
    version := agent.version
    score := agent.last_test_score.getD 0
    status := agent.status
    lastEvaluation := agent.last_test_at.getD agent.created_at }

/-- One row of `vw_test_results_history` as `fetchScoreHistory` reads it:
`tested_at` is an epoch-day index (UTC); day 0 = 1970-01-01 was a Thursday. -/
structure TestHistoryRow where
  tested_at : ℤ
  overall_score : ℚ
deriving DecidableEq, Repr

/-- Start of the week containing epoch-day `d`, as
`weekStart.setDate(date.getDate() - date.getDay())`: JavaScript `getDay` is
`(d + 4) % 7` on epoch days (day 0 was a Thursday, and `%` is `Int.emod`,
matching `getDay`'s always-nonnegative result). -/
def weekStart (d : ℤ) : ℤ := d - (d + 4) % 7

/-- One step of filling the `weeklyScores` map: JavaScript `Map` keeps
first-insertion key order, and `push` appends to the bucket. -/
def insertScore : List (ℤ × List ℚ) → ℤ → ℚ → List (ℤ × List ℚ)
  | [], k, s => [(k, [s])]
  | (k', ss) :: rest, k, s =>
    if k' = k then (k', ss ++ [s]) :: rest else (k', ss) :: insertScore rest k s

/-- One iteration of the `forEach` loop of `fetchScoreHistory`: key the row by
the start of its week and push its score into that bucket. -/
def stepW (m : List (ℤ × List ℚ)) (t : TestHistoryRow) : List (ℤ × List ℚ) :=
  insertScore m (weekStart t.tested_at) t.overall_score

/-- The `weeklyScores` map of `fetchScoreHistory` after the `forEach` loop
(lines 57-69), as an insertion-ordered association list. -/
def groupWeekly (rows : List TestHistoryRow) : List (ℤ × List ℚ) :=
  rows.foldl stepW []

/-- The mapped points `(date, mean score rounded to 1 decimal)` of
`fetchScoreHistory` before `slice(-5)`. -/
def weeklyPoints (rows : List TestHistoryRow) : List (ℤ × ℚ) :=
  (groupWeekly rows).map fun p =>
    (p.1, round1 (p.2.foldl (fun a b => a + b) 0 / p.2.length))

/-- Embedding of `fetchScoreHistory` (lines 47-77) applied to the rows the
upstream query returns; `slice(-5)` keeps the last `min 5 length` entries. -/
def fetchScoreHistory (rows : List TestHistoryRow) : List (ℤ × ℚ) :=
  (weeklyPoints rows).drop ((weeklyPoints rows).length - 5)

/-- Concrete test row in the week of epoch day 0, used as witness input. -/
def rowE : TestHistoryRow := { tested_at := 0, overall_score := 8 }

/-- Concrete test row one week later, used as witness input. -/
def rowF : TestHistoryRow := { tested_at := 7, overall_score := 6 }

/-- Lookup in the association list underlying the `weeklyScores` map. -/
def lookupW : List (ℤ × List ℚ) → ℤ → Option (List ℚ)
  | [], _ => none
  | (k', ss) :: rest, k => if k' = k then some ss else lookupW rest k

/-- Key sequence of the `weeklyScores` map, in insertion order. -/
def keysOf (m : List (ℤ × List ℚ)) : List ℤ := m.map Prod.fst

end Dashboard

namespace Dashboard

theorem round1_zero : round1 0 = 0 := by norm_num [round1]

theorem round1_mono {x y : ℚ} (h : x ≤ y) : round1 x ≤ round1 y := by
  unfold round1
  have hf : (⌊x * 10 + 1/2⌋ : ℤ) ≤ ⌊y * 10 + 1/2⌋ := Int.floor_mono (by linarith)
  have hc : ((⌊x * 10 + 1/2⌋ : ℤ) : ℚ) ≤ ((⌊y * 10 + 1/2⌋ : ℤ) : ℚ) := by exact_mod_cast hf
  linarith

theorem foldl_add_getD (l : List AgentPerformanceSummary) (c : ℤ) :
    l.foldl (fun sum a => sum + a.total_testes_executados.getD 0) c
      = c + (l.map (fun a => a.total_testes_executados.getD 0)).sum := by
  induction l generalizing c with
  | nil => simp
  | cons a l ih => simp [List.foldl, ih]; ring

/-- C1: for every collection of agent summary records in which no record has a
non-null `last_test_score` (including the empty collection),
`fetchDashboardStats` returns `averageScore = 0` and `passRate = 0`, without
faulting and without producing NaN (the embedding is a total function into ℚ,
and both guarded ternaries take their `0` branch). -/
theorem stats_zero_when_no_scores (agents : List AgentPerformanceSummary)
    (h : ∀ a ∈ agents, a.last_test_score = none) :
    (fetchDashboardStats agents).averageScore = 0 ∧
      (fetchDashboardStats agents).passRate = 0 := by
  have hv : validScores agents = [] := by
    rw [validScores, List.filter_eq_nil_iff]
    intro a ha
    simp [h a ha]
  constructor <;>
    simp [fetchDashboardStats, rawAverageScore, rawPassRate, hv, round1_zero]

/-- Witness for C1 at the one-row collection whose only score is null. -/
theorem stats_zero_when_no_scores_witness :
    (fetchDashboardStats [agC]).averageScore = 0 ∧
      (fetchDashboardStats [agC]).passRate = 0 :=
  stats_zero_when_no_scores [agC] (by intro a ha; simp [agC, agA] at ha; simp [ha, agC, agA])

/-- C2: for every collection of agent summary records, `testsRun` equals the
sum over all records of the cumulative test-execution counter
`total_testes_executados`, a missing/null counter contributing 0 (JavaScript
coerces `null` to `0` in `sum + a.total_testes_executados`) while the other
records' counters are summed normally. -/
theorem testsRun_eq_sum (agents : List AgentPerformanceSummary) :
    (fetchDashboardStats agents).testsRun
      = (agents.map (fun a => a.total_testes_executados.getD 0)).sum := by
  simp [fetchDashboardStats, foldl_add_getD]

/-- C6: on the three-record input with scores 9.0, 7.5 and null,
`fetchDashboardStats` returns `totalAgents = 3`, `averageScore = 8.3`
(the mean 8.25 of the two non-null scores rounded to 1 decimal) and
`passRate = 50.0` (1 of the 2 scored records is ≥ 8.0). -/
theorem stats_roundtrip_scenario :
    (fetchDashboardStats [agA, agB, agC]).totalAgents = 3 ∧
      (fetchDashboardStats [agA, agB, agC]).averageScore = 83/10 ∧
      (fetchDashboardStats [agA, agB, agC]).passRate = 50 := by
  refine ⟨rfl, ?_, ?_⟩ <;>
    norm_num [fetchDashboardStats, validScores, scoreSum, passedCount,
      rawAverageScore, rawPassRate, agA, agB, agC, round1,
      List.filter, List.foldl]

/-- C7: appending one further record with a non-null `last_test_score ≥ 8.0`
(leaving all existing records unchanged) never decreases the `passRate`
computed by `fetchDashboardStats`. -/
theorem passRate_mono_add_passing (agents : List AgentPerformanceSummary)
    (a : AgentPerformanceSummary) (s : ℚ)
    (hs : a.last_test_score = some s) (h8 : 8 ≤ s) :
    (fetchDashboardStats agents).passRate
      ≤ (fetchDashboardStats (agents ++ [a])).passRate := by
  have hvalid : validScores (agents ++ [a]) = validScores agents ++ [a] := by
    simp [validScores, List.filter_append, hs]
  have hpassed : passedCount (agents ++ [a]) = passedCount agents + 1 := by
    simp [passedCount, hvalid, List.filter_append, hs, h8]
  have hpn : passedCount agents ≤ (validScores agents).length :=
    List.length_filter_le _ _
  apply round1_mono
  rw [rawPassRate, rawPassRate, hvalid, hpassed, List.length_append]
  set n := (validScores agents).length with hn
  set p := passedCount agents with hp
  simp only [List.length_cons, List.length_nil]
  by_cases h0 : 0 < n
  · rw [if_pos h0, if_pos (by omega)]
    have hnq : (0:ℚ) < n := by exact_mod_cast h0
    have hnq1 : (0:ℚ) < n + 1 := by linarith
    rw [div_mul_eq_mul_div, div_mul_eq_mul_div, div_le_div_iff₀ hnq (by push_cast; linarith)]
    push_cast
    have hpq : (p:ℚ) ≤ n := by exact_mod_cast hpn
    nlinarith
  · have hn0 : n = 0 := by omega
    rw [if_neg h0, if_pos (by omega)]
    have hp0 : p = 0 := by omega
    rw [hn0, hp0]
    norm_num

/-- Witness for C7: appending the score-9 row to the empty collection. -/
theorem passRate_mono_add_passing_witness :
    (fetchDashboardStats []).passRate ≤ (fetchDashboardStats [agA]).passRate :=
  passRate_mono_add_passing [] agA 9 rfl (by norm_num)

/-- C5: on the score range [0,10] the classifier is total and non-overlapping:
a score maps to `passed` iff it is ≥ 8.0, to `warning` iff it is in [6.0, 8.0),
and to `failed` iff it is < 6.0; in particular the boundary values 8.0 and 6.0
map to `passed` and `warning`. -/
theorem getTestStatus_partition (s : ℚ) (h0 : 0 ≤ s) (h10 : s ≤ 10) :
    (getTestStatus s = .passed ↔ 8 ≤ s) ∧
      (getTestStatus s = .warning ↔ 6 ≤ s ∧ s < 8) ∧
      (getTestStatus s = .failed ↔ s < 6) := by
  unfold getTestStatus
  split_ifs with h8 h6 <;>
    refine ⟨?_, ?_, ?_⟩ <;> simp_all <;> linarith

/-- Witness for C5 at the boundary scores 8.0 and 6.0. -/
theorem getTestStatus_partition_witness :
    getTestStatus 8 = .passed ∧ getTestStatus 6 = .warning :=
  ⟨(getTestStatus_partition 8 (by norm_num) (by norm_num)).1.mpr (by norm_num),
   (getTestStatus_partition 6 (by norm_num) (by norm_num)).2.1.mpr (by norm_num)⟩

/-- C9: the mapper copies identity, name, version and status unchanged, sets
`lastEvaluation` to `last_test_at` when present and to `created_at` otherwise
(so it is never null, `created_at` being a non-null column), and sets `score`
to `last_test_score` when non-null and to 0 when absent. -/
theorem mapAgent_fields (agent : AgentPerformanceSummary) :
    (mapAgentToLegacyFormat agent).id = agent.agent_version_id ∧
      (mapAgentToLegacyFormat agent).name = agent.agent_name ∧
      (mapAgentToLegacyFormat agent).version = agent.version ∧
      (mapAgentToLegacyFormat agent).status = agent.status ∧
      (∀ d, agent.last_test_at = some d →
        (mapAgentToLegacyFormat agent).lastEvaluation = d) ∧
      (agent.last_test_at = none →
        (mapAgentToLegacyFormat agent).lastEvaluation = agent.created_at) ∧
      (∀ v, agent.last_test_score = some v → (mapAgentToLegacyFormat agent).score = v) ∧
      (agent.last_test_score = none → (mapAgentToLegacyFormat agent).score = 0) := by
  refine ⟨rfl, rfl, rfl, rfl, ?_, ?_, ?_, ?_⟩ <;>
    first
      | (intro d hd; simp [mapAgentToLegacyFormat, hd])
      | (intro hd; simp [mapAgentToLegacyFormat, hd])

/-- Witness for C9: a row with `last_test_at` null and
`created_at = "2024-01-01"` maps to `lastEvaluation = "2024-01-01"` and a
null score maps to 0. -/
theorem mapAgent_fields_witness :
    (mapAgentToLegacyFormat agD).lastEvaluation = "2024-01-01" ∧
      (mapAgentToLegacyFormat agD).score = 0 :=
  ⟨(mapAgent_fields agD).2.2.2.2.2.1 rfl, (mapAgent_fields agD).2.2.2.2.2.2.2 rfl⟩

/-- C10: on the test-history page, when the fetched set of test records is
empty, the `totalTests > 0` guards make the pass-rate badge show 0 and
`averageDuration` equal 0; neither statistic involves a division by zero
(both definitions take their guarded 0 branch). -/
theorem testsPage_empty_stats (tests : List LatestTestResult) (h : tests = []) :
    passRateBadge tests = 0 ∧ averageDuration tests = 0 := by
  subst h
  constructor <;> simp [passRateBadge, averageDuration]

/-- Witness for C10 at the empty fetched set. -/
theorem testsPage_empty_stats_witness :
    passRateBadge [] = 0 ∧ averageDuration [] = 0 :=
  testsPage_empty_stats [] rfl

theorem filter_ext_bool {α : Type} (l : List α) {p q : α → Bool}
    (h : ∀ a, p a = q a) : l.filter p = l.filter q := by
  have : p = q := funext h
  rw [this]

theorem strHas_nil (l : List Char) : strHas [] l = true := by
  induction l with
  | nil => rfl
  | cons c rest ih => simp [strHas, strStarts]

/-- C8: the three per-record criteria of the test-history page commute —
applying the single-criterion filters in any of the six orders gives the
conjunction filter implemented by `filteredTests`; the page's result is a
permutation of exactly the records matching all active criteria, sorted by
`tested_at` descending; and an empty query and the two `all` filter values
each match every record. -/
theorem filteredTests_correct (q : String) (sf : StatusFilter)
    (scf : ScoreFilter) (tests : List LatestTestResult) :
    (((tests.filter (fun t => matchesSearch q t)).filter
        (fun t => matchesStatus sf t)).filter (fun t => matchesScore scf t)
      = tests.filter (testMatches q sf scf)) ∧
    (((tests.filter (fun t => matchesSearch q t)).filter
        (fun t => matchesScore scf t)).filter (fun t => matchesStatus sf t)
      = tests.filter (testMatches q sf scf)) ∧
    (((tests.filter (fun t => matchesStatus sf t)).filter
        (fun t => matchesSearch q t)).filter (fun t => matchesScore scf t)
      = tests.filter (testMatches q sf scf)) ∧
    (((tests.filter (fun t => matchesStatus sf t)).filter
        (fun t => matchesScore scf t)).filter (fun t => matchesSearch q t)
      = tests.filter (testMatches q sf scf)) ∧
    (((tests.filter (fun t => matchesScore scf t)).filter
        (fun t => matchesSearch q t)).filter (fun t => matchesStatus sf t)
      = tests.filter (testMatches q sf scf)) ∧
    (((tests.filter (fun t => matchesScore scf t)).filter
        (fun t => matchesStatus sf t)).filter (fun t => matchesSearch q t)
      = tests.filter (testMatches q sf scf)) ∧
    (filteredTests q sf scf tests).Perm (tests.filter (testMatches q sf scf)) ∧
    List.Sorted dateDesc (filteredTests q sf scf tests) ∧
    (∀ t, matchesSearch "" t = true ∧ matchesStatus .all t = true ∧
      matchesScore .all t = true) := by
  refine ⟨?_, ?_, ?_, ?_, ?_, ?_, ?_, ?_, ?_⟩
  · rw [List.filter_filter, List.filter_filter]
    exact filter_ext_bool tests fun t => by
      simp [testMatches, Bool.and_comm, Bool.and_left_comm, Bool.and_assoc]
  · rw [List.filter_filter, List.filter_filter]
    exact filter_ext_bool tests fun t => by
      simp [testMatches, Bool.and_comm, Bool.and_left_comm, Bool.and_assoc]
  · rw [List.filter_filter, List.filter_filter]
    exact filter_ext_bool tests fun t => by
      simp [testMatches, Bool.and_comm, Bool.and_left_comm, Bool.and_assoc]
  · rw [List.filter_filter, List.filter_filter]
    exact filter_ext_bool tests fun t => by
      simp [testMatches, Bool.and_comm, Bool.and_left_comm, Bool.and_assoc]
  · rw [List.filter_filter, List.filter_filter]
    exact filter_ext_bool tests fun t => by
      simp [testMatches, Bool.and_comm, Bool.and_left_comm, Bool.and_assoc]
  · rw [List.filter_filter, List.filter_filter]
    exact filter_ext_bool tests fun t => by
      simp [testMatches, Bool.and_comm, Bool.and_left_comm, Bool.and_assoc]
  · exact List.perm_insertionSort dateDesc _
  · exact List.sorted_insertionSort dateDesc _
  · intro t
    refine ⟨?_, rfl, rfl⟩
    simp [matchesSearch, lowerChars, strHas_nil]

theorem weekStart_eq (d : ℤ) : weekStart d = 7 * ((d + 4) / 7) - 4 := by
  unfold weekStart
  rw [Int.emod_def]
  ring

theorem weekStart_mono {a b : ℤ} (h : a ≤ b) : weekStart a ≤ weekStart b := by
  rw [weekStart_eq, weekStart_eq]
  have hd : (a + 4) / 7 ≤ (b + 4) / 7 := Int.ediv_le_ediv (by norm_num) (by omega)
  omega

theorem keysOf_cons (hd : ℤ × List ℚ) (rest : List (ℤ × List ℚ)) :
    keysOf (hd :: rest) = hd.1 :: keysOf rest := rfl

theorem keysOf_insertScore (m : List (ℤ × List ℚ)) (k : ℤ) (s : ℚ) :
    keysOf (insertScore m k s)
      = if k ∈ keysOf m then keysOf m else keysOf m ++ [k] := by
  induction m with
  | nil => simp [insertScore, keysOf]
  | cons hd rest ih =>
    obtain ⟨k', ss⟩ := hd
    by_cases hk : k' = k
    · subst hk
      simp [insertScore, keysOf]
    · simp only [insertScore, if_neg hk, keysOf_cons]
      rw [ih]
      by_cases hmem : k ∈ keysOf rest
      · rw [if_pos hmem, if_pos (by exact List.mem_cons_of_mem _ hmem)]
      · rw [if_neg hmem, if_neg (by simp [Ne.symm hk, hmem]), List.cons_append]

theorem lookupW_insert_self (m : List (ℤ × List ℚ)) (k : ℤ) (s : ℚ) :
    lookupW (insertScore m k s) k = some ((lookupW m k).getD [] ++ [s]) := by
  induction m with
  | nil => simp [insertScore, lookupW]
  | cons hd rest ih =>
    obtain ⟨k', ss⟩ := hd
    by_cases hk : k' = k
    · subst hk
      simp [insertScore, lookupW]
    · simp [insertScore, lookupW, hk, ih]

theorem lookupW_insert_ne (m : List (ℤ × List ℚ)) {k k' : ℤ} (s : ℚ)
    (h : k' ≠ k) : lookupW (insertScore m k s) k' = lookupW m k' := by
  induction m with
  | nil => simp [insertScore, lookupW, Ne.symm h]
  | cons hd rest ih =>
    obtain ⟨k₀, ss⟩ := hd
    by_cases hk : k₀ = k
    · subst hk
      simp [insertScore, lookupW, Ne.symm h]
    · simp only [insertScore, if_neg hk, lookupW]
      split <;> simp [ih]

theorem lookupW_foldl (rows : List TestHistoryRow) (m : List (ℤ × List ℚ))
    (k : ℤ) :
    (lookupW (rows.foldl stepW m) k).getD []
      = (lookupW m k).getD []
        ++ (rows.filter (fun t => weekStart t.tested_at = k)).map
            (fun t => t.overall_score) := by
  induction rows generalizing m with
  | nil => simp
  | cons t rest ih =>
    simp only [List.foldl_cons, List.filter_cons]
    by_cases hk : weekStart t.tested_at = k
    · rw [ih]
      rw [stepW, hk, lookupW_insert_self]
      simp [hk]
    · rw [ih]
      rw [stepW, lookupW_insert_ne _ _ (fun hh => hk hh.symm)]
      simp [hk]

theorem insertScore_ne_nil {m : List (ℤ × List ℚ)} {k : ℤ} {s : ℚ}
    (hm : ∀ e ∈ m, e.2 ≠ []) : ∀ e ∈ insertScore m k s, e.2 ≠ [] := by
  induction m with
  | nil =>
    intro e he
    simp [insertScore] at he
    simp [he]
  | cons hd rest ih =>
    obtain ⟨k', ss⟩ := hd
    intro e he
    by_cases hk : k' = k
    · subst hk
      simp only [insertScore, if_pos rfl] at he
      rcases List.mem_cons.mp he with he | he
      · simp [he]
      · exact hm e (List.mem_cons_of_mem _ he)
    · simp only [insertScore, if_neg hk] at he
      rcases List.mem_cons.mp he with he | he
      · exact he ▸ hm _ (List.mem_cons_self _ _)
      · exact ih (fun e' he' => hm e' (List.mem_cons_of_mem _ he')) e he

theorem groupWeekly_ne_nil (rows : List TestHistoryRow) :
    ∀ e ∈ groupWeekly rows, e.2 ≠ [] := by
  suffices h : ∀ (m : List (ℤ × List ℚ)), (∀ e ∈ m, e.2 ≠ []) →
      ∀ e ∈ rows.foldl stepW m, e.2 ≠ [] by
    exact h [] (by simp)
  induction rows with
  | nil => intro m hm; simpa using hm
  | cons t rest ih =>
    intro m hm
    simp only [List.foldl_cons]
    exact ih _ (insertScore_ne_nil hm)

theorem nodup_keys_insertScore {m : List (ℤ × List ℚ)} {k : ℤ} {s : ℚ}
    (h : (keysOf m).Nodup) : (keysOf (insertScore m k s)).Nodup := by
  rw [keysOf_insertScore]
  by_cases hk : k ∈ keysOf m
  · simpa [hk] using h
  · simp only [if_neg hk]
    simpa [List.nodup_append] using ⟨h, hk⟩

theorem nodup_keys_groupWeekly (rows : List TestHistoryRow) :
    (keysOf (groupWeekly rows)).Nodup := by
  suffices h : ∀ (m : List (ℤ × List ℚ)), (keysOf m).Nodup →
      (keysOf (rows.foldl stepW m)).Nodup by
    exact h [] (by simp [keysOf])
  induction rows with
  | nil => intro m hm; simpa using hm
  | cons t rest ih =>
    intro m hm
    simp only [List.foldl_cons]
    exact ih _ (nodup_keys_insertScore hm)

theorem lookupW_of_mem {m : List (ℤ × List ℚ)} (hnd : (keysOf m).Nodup)
    {e : ℤ × List ℚ} (he : e ∈ m) : lookupW m e.1 = some e.2 := by
  induction m with
  | nil => cases he
  | cons hd rest ih =>
    obtain ⟨k', ss⟩ := hd
    rw [keysOf_cons, List.nodup_cons] at hnd
    rcases List.mem_cons.mp he with he | he
    · subst he
      simp [lookupW]
    · have hemem : e.1 ∈ keysOf rest := List.mem_map_of_mem Prod.fst he
      have hk : ¬((k', ss).1 = e.1) := fun hh => hnd.1 (hh ▸ hemem)
      simp only [lookupW, if_neg hk]
      exact ih hnd.2 he

theorem pairwise_keys_foldl (rows : List TestHistoryRow) :
    ∀ m : List (ℤ × List ℚ),
      (keysOf m).Pairwise (· < ·) →
      (∀ k ∈ keysOf m, ∀ t ∈ rows, k ≤ weekStart t.tested_at) →
      rows.Pairwise (fun a b => a.tested_at ≤ b.tested_at) →
      (keysOf (rows.foldl stepW m)).Pairwise (· < ·) := by
  induction rows with
  | nil =>
    intro m hm _ _
    simpa using hm
  | cons t rest ih =>
    intro m hm hb hs
    rw [List.pairwise_cons] at hs
    simp only [List.foldl_cons]
    apply ih
    · rw [stepW, keysOf_insertScore]
      by_cases hmem : weekStart t.tested_at ∈ keysOf m
      · rwa [if_pos hmem]
      · rw [if_neg hmem, List.pairwise_append]
        refine ⟨hm, List.pairwise_singleton _ _, ?_⟩
        intro a ha b hb'
        rw [List.mem_singleton] at hb'
        subst hb'
        rcases lt_or_eq_of_le (hb a ha t (List.mem_cons_self _ _)) with h | h
        · exact h
        · exact absurd (h ▸ ha) hmem
    · intro k hk t' ht'
      rw [stepW, keysOf_insertScore] at hk
      by_cases hmem : weekStart t.tested_at ∈ keysOf m
      · rw [if_pos hmem] at hk
        exact hb k hk t' (List.mem_cons_of_mem _ ht')
      · rw [if_neg hmem] at hk
        rcases List.mem_append.mp hk with hk | hk
        · exact hb k hk t' (List.mem_cons_of_mem _ ht')
        · rw [List.mem_singleton] at hk
          subst hk
          exact weekStart_mono (hs.1 t' ht')
    · exact hs.2

theorem pairwise_keys_groupWeekly (rows : List TestHistoryRow)
    (hs : rows.Pairwise (fun a b => a.tested_at ≤ b.tested_at)) :
    (keysOf (groupWeekly rows)).Pairwise (· < ·) :=
  pairwise_keys_foldl rows [] (by simp [keysOf]) (by simp [keysOf]) hs

theorem pairwise_weeklyPoints (rows : List TestHistoryRow)
    (hs : rows.Pairwise (fun a b => a.tested_at ≤ b.tested_at)) :
    (weeklyPoints rows).Pairwise (fun p q => p.1 < q.1) := by
  have h := pairwise_keys_groupWeekly rows hs
  rw [keysOf, List.pairwise_map] at h
  rw [weeklyPoints, List.pairwise_map]
  exact h

/-- C3: for an input sorted ascending by `tested_at` (as fetched), the
sequence returned by `fetchScoreHistory` has length at most 5, its entries are
strictly ascending by date, and every weekly point that `slice(-5)` dropped
carries a strictly earlier date than every point it kept (only the 5 most
recent weekly buckets survive). -/
theorem fetchScoreHistory_window (rows : List TestHistoryRow)
    (hs : rows.Pairwise (fun a b => a.tested_at ≤ b.tested_at)) :
    (fetchScoreHistory rows).length ≤ 5 ∧
      (fetchScoreHistory rows).Pairwise (fun p q => p.1 < q.1) ∧
      ∀ p ∈ (weeklyPoints rows).take ((weeklyPoints rows).length - 5),
        ∀ q ∈ fetchScoreHistory rows, p.1 < q.1 := by
  have hpw := pairwise_weeklyPoints rows hs
  refine ⟨?_, ?_, ?_⟩
  · rw [fetchScoreHistory, List.length_drop]
    omega
  · exact List.Pairwise.sublist (List.drop_sublist _ _) hpw
  · intro p hp q hq
    rw [fetchScoreHistory] at hq
    rw [← List.take_append_drop ((weeklyPoints rows).length - 5)
      (weeklyPoints rows)] at hpw
    exact (List.pairwise_append.mp hpw).2.2 p hp q hq

/-- Witness for C3 at a two-row ascending input spanning two weeks. -/
theorem fetchScoreHistory_window_witness :
    (fetchScoreHistory [rowE, rowF]).length ≤ 5 ∧
      (fetchScoreHistory [rowE, rowF]).Pairwise (fun p q => p.1 < q.1) ∧
      ∀ p ∈ (weeklyPoints [rowE, rowF]).take
        ((weeklyPoints [rowE, rowF]).length - 5),
        ∀ q ∈ fetchScoreHistory [rowE, rowF], p.1 < q.1 :=
  fetchScoreHistory_window [rowE, rowF]
    (by simp [rowE, rowF, List.pairwise_cons])

theorem foldl_add_rat (l : List ℚ) (c : ℚ) :
    l.foldl (fun a b => a + b) c = c + l.sum := by
  induction l generalizing c with
  | nil => simp
  | cons x xs ih =>
    simp only [List.foldl_cons, ih, List.sum_cons]
    ring

/-- C4: every point emitted by `fetchScoreHistory` carries as its score the
mean of `overall_score` over exactly the input rows whose week start equals
that point's date, rounded to 1 decimal place, and no emitted point
corresponds to a week containing zero input rows. -/
theorem fetchScoreHistory_bucket_mean (rows : List TestHistoryRow) :
    ∀ p ∈ fetchScoreHistory rows,
      rows.filter (fun t => weekStart t.tested_at = p.1) ≠ [] ∧
        p.2 = round1
          (((rows.filter (fun t => weekStart t.tested_at = p.1)).map
              (fun t => t.overall_score)).sum
            / ((rows.filter (fun t => weekStart t.tested_at = p.1)).length : ℚ)) := by
  intro p hp
  rw [fetchScoreHistory] at hp
  have hp' : p ∈ weeklyPoints rows := List.drop_subset _ _ hp
  rw [weeklyPoints, List.mem_map] at hp'
  obtain ⟨e, heg, hpe⟩ := hp'
  have hlk : lookupW (groupWeekly rows) e.1 = some e.2 :=
    lookupW_of_mem (nodup_keys_groupWeekly rows) heg
  have hfl := lookupW_foldl rows [] e.1
  rw [show List.foldl stepW [] rows = groupWeekly rows from rfl, hlk] at hfl
  simp only [lookupW, Option.getD_some, Option.getD_none, List.nil_append] at hfl
  have hne : e.2 ≠ [] := groupWeekly_ne_nil rows e heg
  subst hpe
  simp only
  constructor
  · intro hnil
    apply hne
    rw [hfl, hnil, List.map_nil]
  · rw [hfl, foldl_add_rat, List.length_map, zero_add]

/-- Witness for C4 at a one-row input: the single emitted point averages
exactly that row. -/
theorem fetchScoreHistory_bucket_mean_witness :
    [rowE].filter (fun t => weekStart t.tested_at = (-4 : ℤ)) ≠ [] ∧
      (8 : ℚ) = round1
        ((([rowE].filter (fun t => weekStart t.tested_at = (-4 : ℤ))).map
            (fun t => t.overall_score)).sum
          / (([rowE].filter (fun t => weekStart t.tested_at = (-4 : ℤ))).length : ℚ)) :=
  fetchScoreHistory_bucket_mean [rowE] ((-4 : ℤ), (8 : ℚ))
    (by norm_num [fetchScoreHistory, weeklyPoints, groupWeekly, stepW,
      insertScore, weekStart, rowE, round1])

end Dashboard
